import Mathlib

/-!
Verification of the alert-dispatch engine of the security-system repository.
Definitions are shallow embeddings of the Rust source (src/src/alerts.rs and
src/src/communications/mod.rs); machine integers are modelled as Nat, async
loops as fuel-indexed recursion, and I/O oracles as explicit function
arguments.
-/

/-- Severity enum from src/src/alerts.rs (AlertLevel). -/
inductive AlertLevel where
  | Info
  | Warning
  | Critical
  | Alarm
deriving DecidableEq

/-- Modelled from the spec: AlertLevel.as_u8 is used by get_recipients in
src/src/communications/mod.rs but its definition is absent from src; the spec
fixes the order Info < Warning < Critical < Alarm represented as a small
integer, so the variants map to 0,1,2,3 in declaration order. -/
def AlertLevel.as_u8 : AlertLevel → Nat
  | .Info => 0
  | .Warning => 1
  | .Critical => 2
  | .Alarm => 3

/-- AlertInfo from src/src/alerts.rs; the two Rust strings are modelled by
their UTF-8 byte lists, the u64 timestamp by Nat. -/
structure AlertInfo where
  source : List Nat
  message : List Nat
  level : AlertLevel
  timestamp : Option Nat
deriving DecidableEq

/-- The observable actions of the task spawned by AlertManager::execute
(src/src/alerts.rs lines 230-248), in program order. -/
inductive DispatchStep where
  | acquirePermit
  | handleAlert
  | deleteState
  | releasePermit
deriving DecidableEq

/-- Body of the task spawned by AlertManager::execute: it acquires a semaphore
permit, handles the alert, deletes the state file and drops the permit; the
source contains no branch on the alert level, so the step list is the same for
every alert. -/
def executeSteps (alert : AlertInfo) : List DispatchStep :=
  [DispatchStep.acquirePermit, DispatchStep.handleAlert,
   DispatchStep.deleteState, DispatchStep.releasePermit]

/-- Counter initialization performed by AlertManager::load_existing_states:
the AtomicUsize starts at 0 and, when at least one state was loaded,
fetch_add(size + 1) is applied where size is the NUMBER of loaded states. -/
def counterAfterLoad (loadedCount : Nat) : Nat :=
  if 0 < loadedCount then loadedCount + 1 else 0

/-- Ids handed out by successive AlertManager::create_state_path calls:
each call is fetch_add(1), so starting from counter value start the k-th
call returns start + k. -/
def freshIds (start count : Nat) : List Nat :=
  (List.range count).map (fun k => start + k)

/-- CommunicationRecipient from src/src/config.rs: a target identifier and a
minimum severity level stored as a u8. -/
structure CommunicationRecipient where
  target : String
  level : Nat
deriving DecidableEq

/-- CommunicationProvider::get_recipients from src/src/communications/mod.rs:
enumerate the configured recipients, keep those whose level is at most the
alert level's integer rank, and return their indices. -/
def get_recipients (recipients : List CommunicationRecipient) (alert : AlertInfo) : List Nat :=
  let level_u8 := alert.level.as_u8
  ((recipients.enum).filter (fun p => decide (p.2.level ≤ level_u8))).map Prod.fst

/-- Inner retry loop of AlertWorker::alarm (src/src/alerts.rs lines 84-94):
broadcast is called repeatedly until it returns Ok. The oracle ok gives the
outcome of the i-th broadcast call; fuel bounds how many iterations of the
otherwise unbounded Rust loop are unfolded. The result is (r, calls) where r
is some () when the loop returned within fuel iterations, and calls is the
number of broadcast calls made. -/
def alarmRetryLoop (ok : Nat → Bool) : Nat → Nat → Option Unit × Nat
  | 0, _ => (none, 0)
  | fuel + 1, i =>
    if ok i then (some (), 1)
    else
      let r := alarmRetryLoop ok fuel (i + 1)
      (r.1, r.2 + 1)

/-- Observable outcome of one AlertWorker::alarm call. -/
structure AlarmOutcome where
  result : Option Unit
  alarm_last : Option Nat
  broadcastCalls : Nat
deriving DecidableEq

/-- AlertWorker::alarm from src/src/alerts.rs lines 71-95. State alarm_last
is the shared last-alarm instant, now the current instant, both in the same
clock; tokio Instant::duration_since saturates at zero, matching Nat
subtraction. If alarm_last is set and now - last < cooldown the event is
suppressed: the function returns Ok immediately, without broadcasting and
without touching alarm_last. Otherwise alarm_last is set to now before the
broadcast retry loop runs. -/
def alarm (alarm_last : Option Nat) (now cooldown : Nat) (ok : Nat → Bool)
    (fuel : Nat) : AlarmOutcome :=
  match alarm_last with
  | some t =>
    if now - t < cooldown then ⟨some (), some t, 0⟩
    else
      let r := alarmRetryLoop ok fuel 0
      ⟨r.1, some now, r.2⟩
  | none =>
    let r := alarmRetryLoop ok fuel 0
    ⟨r.1, some now, r.2⟩

/-- Result of one CommunicationProvider::send call
(src/src/communications/mod.rs lines 11-14). -/
inductive SendResultKind where
  | Completed (failed : List Nat)
  | Unavailable (reason : String)
deriving DecidableEq

/-- Failed-recipient list carried by a send result. -/
def SendResultKind.failedOf : SendResultKind → List Nat
  | .Completed failed => failed
  | .Unavailable _ => []

/-- Observable outcome of CommunicationRegistry::send_with_retry: the list of
recipient index sets passed to provider.send, in attempt order; the recipient
set still held by the loop variable on exit; and whether the loop exited
through the Unavailable branch. -/
structure RetryOutcome where
  attempts : List (List Nat)
  remaining : List Nat
  unavailable : Bool
deriving DecidableEq

/-- Loop body of CommunicationRegistry::send_with_retry
(src/src/communications/mod.rs lines 129-154): for attempt in a range, send
to the current recipients; on Completed with empty failed list return; on
Completed with a non-empty failed list set recipients := failed, sleep, and
continue; on Unavailable return immediately. The oracle send gives the
provider response for a given attempt number and recipient set; fuel is the
number of loop iterations remaining. -/
def retryGo (send : Nat → List Nat → SendResultKind) :
    Nat → Nat → List Nat → RetryOutcome
  | 0, _, recipients => ⟨[], recipients, false⟩
  | fuel + 1, attempt, recipients =>
    match send attempt recipients with
    | .Completed failed =>
      if failed.isEmpty then ⟨[recipients], [], false⟩
      else
        let o := retryGo send fuel (attempt + 1) failed
        ⟨recipients :: o.attempts, o.remaining, o.unavailable⟩
    | .Unavailable _ => ⟨[recipients], recipients, true⟩

/-- CommunicationRegistry::send_with_retry (src/src/communications/mod.rs
lines 114-162): compute the recipient subset, return at once when it is
empty, otherwise run the loop for attempt in 1..=retry_max + 1. -/
def send_with_retry (send : Nat → List Nat → SendResultKind) (retry_max : Nat)
    (allRecipients : List Nat) : RetryOutcome :=
  if allRecipients.isEmpty then ⟨[], [], false⟩
  else retryGo send (retry_max + 1) 1 allRecipients

/-- CommunicationRegistry::broadcast (src/src/communications/mod.rs lines
104-112): one independent send_with_retry per registered provider, joined.
Each provider is a name together with its send oracle and its filtered
recipient set. -/
def registryBroadcast (retry_max : Nat)
    (providers : List (String × (Nat → List Nat → SendResultKind) × List Nat)) :
    List (String × RetryOutcome) :=
  providers.map (fun p => (p.1, send_with_retry p.2.1 retry_max p.2.2))

/-- Result reported per provider to AlertWorker::broadcast
(src/src/alerts.rs lines 114-129): Ok(Sent), Ok(Invalid(e)) or Err(e). -/
inductive ProviderResult where
  | Sent
  | Invalid (e : String)
  | Failed (e : String)
deriving DecidableEq

/-- HashSet::insert on the ignored-provider set, modelled on a duplicate-free
list. -/
def insertName (n : String) (l : List String) : List String :=
  if n ∈ l then l else n :: l

/-- Accumulator of the result-processing loop inside AlertWorker::broadcast. -/
structure FoldState where
  ignored : List String
  successes : Nat
  anyFailed : Bool
deriving DecidableEq

/-- The for-loop over broadcast_results in AlertWorker::broadcast
(src/src/alerts.rs lines 114-130): Sent inserts the provider into the ignored
set and bumps successes, Invalid only inserts it, Err sets any_failed. -/
def processResults : List (String × ProviderResult) → FoldState → FoldState
  | [], s => s
  | (name, r) :: rest, s =>
    match r with
    | .Sent => processResults rest ⟨insertName name s.ignored, s.successes + 1, s.anyFailed⟩
    | .Invalid _ => processResults rest ⟨insertName name s.ignored, s.successes, s.anyFailed⟩
    | .Failed _ => processResults rest ⟨s.ignored, s.successes, true⟩

/-- Modelled from the spec: the CommunicationRegistry::broadcast overload
taking the ignored-provider set, called by AlertWorker::broadcast, is absent
from src (src/src/communications/mod.rs holds a different revision of the
registry). Per the spec every configured provider runs independently and
reports one outcome, so the call is modelled as returning one (name, result)
pair for every registered provider not in the ignored set, with res giving
each provider's outcome. -/
def regBroadcastResults (providers : List String) (res : String → ProviderResult)
    (ignored : List String) : List (String × ProviderResult) :=
  (providers.filter (fun p => !(decide (p ∈ ignored)))).map (fun p => (p, res p))

/-- Attempt loop of AlertWorker::broadcast (src/src/alerts.rs lines 102-142),
returning (isOk, successes): after processing one round of results, return
with Ok iff successes is positive when every provider is ignored; return Ok
when nothing failed; otherwise retry. After the loop (fuel exhausted) the
final check at lines 144-157 returns Ok iff successes is positive. The oracle
res gives each provider's outcome at each attempt. -/
def workerGo (providers : List String) (res : Nat → String → ProviderResult) :
    Nat → Nat → List String → Nat → Bool × Nat
  | 0, _, _, successes => (decide (0 < successes), successes)
  | fuel + 1, attempt, ignored, successes =>
    let s := processResults (regBroadcastResults providers (res attempt) ignored)
      ⟨ignored, successes, false⟩
    if s.ignored.length = providers.length then (decide (0 < s.successes), s.successes)
    else if s.anyFailed = false then (true, s.successes)
    else workerGo providers res fuel (attempt + 1) s.ignored s.successes

/-- AlertWorker::broadcast (src/src/alerts.rs lines 97-158): starts with an
empty ignored set and zero successes and runs the attempt loop for attempt in
1..=retry_max. -/
def workerBroadcast (providers : List String) (res : Nat → String → ProviderResult)
    (retry_max : Nat) : Bool × Nat :=
  workerGo providers res retry_max 1 [] 0

/-- Little-endian fixed 8-byte encoding of a u64, as written by
bincode::serialize for u64 fields (the string-length prefixes and the
timestamp of AlertInfo). -/
def u64le (n : Nat) : List Nat :=
  [n % 256, n / 256 % 256, n / 65536 % 256, n / 16777216 % 256,
   n / 4294967296 % 256, n / 1099511627776 % 256,
   n / 281474976710656 % 256, n / 72057594037927936 % 256]

/-- Little-endian fixed 4-byte encoding of a u32, as written by
bincode::serialize for the enum variant index of AlertLevel. -/
def u32le (n : Nat) : List Nat :=
  [n % 256, n / 256 % 256, n / 65536 % 256, n / 16777216 % 256]

/-- Value of a little-endian byte list. -/
def lebytesToNat : List Nat → Nat
  | [] => 0
  | b :: rest => b + 256 * lebytesToNat rest

/-- Reader primitive: consume exactly k bytes from the input. -/
def readBytes (k : Nat) (l : List Nat) : Option (List Nat × List Nat) :=
  if k ≤ l.length then some (l.take k, l.drop k) else none

/-- Reader for a u64 (8 bytes, little-endian). -/
def readU64 (l : List Nat) : Option (Nat × List Nat) :=
  match readBytes 8 l with
  | some (bs, rest) => some (lebytesToNat bs, rest)
  | none => none

/-- Reader for a u32 (4 bytes, little-endian). -/
def readU32 (l : List Nat) : Option (Nat × List Nat) :=
  match readBytes 4 l with
  | some (bs, rest) => some (lebytesToNat bs, rest)
  | none => none

/-- Bincode encoding of a string: u64 byte length followed by the bytes. -/
def writeStr (s : List Nat) : List Nat := u64le s.length ++ s

/-- Bincode reader for a string. -/
def readStr (l : List Nat) : Option (List Nat × List Nat) :=
  match readU64 l with
  | some (n, rest) => readBytes n rest
  | none => none

/-- Variant index of AlertLevel in declaration order, used by serde for a
unit enum variant. -/
def levelIdx : AlertLevel → Nat
  | .Info => 0
  | .Warning => 1
  | .Critical => 2
  | .Alarm => 3

/-- Decoder of an AlertLevel variant index. -/
def levelOfIdx : Nat → Option AlertLevel
  | 0 => some .Info
  | 1 => some .Warning
  | 2 => some .Critical
  | 3 => some .Alarm
  | _ => none

/-- Bincode encoding of AlertLevel: the u32 variant index. -/
def writeLevel (lv : AlertLevel) : List Nat := u32le (levelIdx lv)

/-- Bincode reader for AlertLevel. -/
def readLevel (l : List Nat) : Option (AlertLevel × List Nat) :=
  match readU32 l with
  | some (n, rest) =>
    match levelOfIdx n with
    | some lv => some (lv, rest)
    | none => none
  | none => none

/-- Bincode encoding of Option of u64: tag byte 0 for None, tag byte 1
followed by the value for Some. -/
def writeOptU64 : Option Nat → List Nat
  | none => [0]
  | some n => 1 :: u64le n

/-- Bincode reader for Option of u64. -/
def readOptU64 (l : List Nat) : Option (Option Nat × List Nat) :=
  match l with
  | 0 :: rest => some (none, rest)
  | 1 :: rest =>
    match readU64 rest with
    | some (n, r) => some (some n, r)
    | none => none
  | _ => none

/-- Byte stream produced by save_state (src/src/alerts.rs lines 161-169):
bincode::serialize of AlertInfo writes the fields in declaration order. -/
def serializeAlert (a : AlertInfo) : List Nat :=
  writeStr a.source ++ (writeStr a.message ++ (writeLevel a.level ++ writeOptU64 a.timestamp))

/-- Deserialization performed by AlertManager::load_state_file
(src/src/alerts.rs lines 273-279): bincode::deserialize reads the fields in
declaration order; the legacy bincode entry point tolerates trailing bytes,
so the unread remainder is returned alongside the value. -/
def deserializeAlert (l : List Nat) : Option (AlertInfo × List Nat) :=
  match readStr l with
  | none => none
  | some (source, l1) =>
    match readStr l1 with
    | none => none
    | some (message, l2) =>
      match readLevel l2 with
      | none => none
      | some (level, l3) =>
        match readOptU64 l3 with
        | none => none
        | some (timestamp, l4) => some (⟨source, message, level, timestamp⟩, l4)

/-- Concrete Alarm-severity alert used as explicit input. -/
def alarmSampleAlert : AlertInfo := ⟨[], [], .Alarm, none⟩

/-- Send oracle of a recipient set whose delivery always fails: every
attempted recipient is reported back as failed. -/
def alwaysFailSend : Nat → List Nat → SendResultKind :=
  fun _ recipients => .Completed recipients

/-- Send oracle for which recipient 1 fails on attempt 1 and everything else
succeeds. -/
def dropOneSend : Nat → List Nat → SendResultKind :=
  fun a recipients =>
    .Completed (recipients.filter (fun r => decide (a = 1) && decide (r = 1)))

/-- Send oracle of a provider whose transport client is missing. -/
def unavailableSend : Nat → List Nat → SendResultKind :=
  fun _ _ => .Unavailable "missing client"

/-- Provider-result oracle where every provider reports the alert invalid at
every attempt. -/
def allInvalidRes : Nat → String → ProviderResult :=
  fun _ _ => .Invalid "bad"

/-- Recipient list of the spec example: A at Warning level, B at Alarm
level. -/
def sampleRecipients : List CommunicationRecipient :=
  [⟨"A", AlertLevel.Warning.as_u8⟩, ⟨"B", AlertLevel.Alarm.as_u8⟩]

/-- Concrete alert used to witness the serialization round trip. -/
def sampleAlert : AlertInfo := ⟨[115, 121, 115], [100, 111, 119, 110], .Alarm, some 1700000000⟩

/-- The alarm broadcast retry loop makes at least one broadcast call whenever
it is given at least one iteration of fuel. -/
lemma alarmRetryLoop_calls_pos (ok : Nat → Bool) (fuel i : Nat) (h : 1 ≤ fuel) :
    1 ≤ (alarmRetryLoop ok fuel i).2 := by
  cases fuel with
  | zero => omega
  | succ f =>
    simp only [alarmRetryLoop]
    split
    · simp
    · simp

/-- C1: for two Alarm-severity events handled less than cooldown_window
apart, the second is suppressed by the cooldown gate: AlertWorker::alarm
returns Ok with no broadcast call; for two Alarm events handled more than
cooldown_window apart, both trigger broadcasting. -/
theorem alarm_cooldown_gate (t1 t2 cooldown : Nat) (ok1 ok2 : Nat → Bool)
    (fuel1 fuel2 : Nat) (h1 : 1 ≤ fuel1) (h2 : 1 ≤ fuel2) :
    1 ≤ (alarm none t1 cooldown ok1 fuel1).broadcastCalls ∧
    (alarm none t1 cooldown ok1 fuel1).alarm_last = some t1 ∧
    (t2 - t1 < cooldown →
      alarm (alarm none t1 cooldown ok1 fuel1).alarm_last t2 cooldown ok2 fuel2 =
        ⟨some (), some t1, 0⟩) ∧
    (cooldown < t2 - t1 →
      1 ≤ (alarm (alarm none t1 cooldown ok1 fuel1).alarm_last t2 cooldown ok2 fuel2).broadcastCalls) := by
  refine ⟨alarmRetryLoop_calls_pos ok1 fuel1 0 h1, rfl, ?_, ?_⟩
  · intro hlt
    simp [alarm, hlt]
  · intro hgt
    have hnot : ¬ (t2 - t1 < cooldown) := by omega
    simp only [alarm, hnot, if_false]
    exact alarmRetryLoop_calls_pos ok2 fuel2 0 h2

/-- C1 witness: with cooldown 5, a first alarm at instant 0 and a second at
instant 1 (inside the window), the second returns Ok, keeps alarm_last at 0
and performs no broadcast; with the second instead at instant 7 (outside the
window), it broadcasts. -/
theorem alarm_cooldown_gate_witness :
    (alarm (alarm none 0 5 (fun _ => true) 1).alarm_last 1 5 (fun _ => true) 1 =
      ⟨some (), some 0, 0⟩) ∧
    1 ≤ (alarm (alarm none 0 5 (fun _ => true) 1).alarm_last 7 5 (fun _ => true) 1).broadcastCalls := by
  constructor
  · exact (alarm_cooldown_gate 0 1 5 (fun _ => true) (fun _ => true) 1 1
      (by decide) (by decide)).2.2.1 (by decide)
  · exact (alarm_cooldown_gate 0 7 5 (fun _ => true) (fun _ => true) 1 1
      (by decide) (by decide)).2.2.2 (by decide)

/-- C10: a suppressed Alarm leaves the cooldown state unchanged: inside the
window AlertWorker::alarm returns Ok, keeps alarm_last at its previous value
and performs no broadcast; and when alarm_last is still unset the event is
never suppressed: the broadcast loop runs and the window is entered. -/
theorem suppressed_alarm_frame (t now cooldown : Nat) (ok : Nat → Bool) (fuel : Nat)
    (hs : now - t < cooldown) (hf : 1 ≤ fuel) :
    alarm (some t) now cooldown ok fuel = ⟨some (), some t, 0⟩ ∧
    (alarm none now cooldown ok fuel).alarm_last = some now ∧
    1 ≤ (alarm none now cooldown ok fuel).broadcastCalls := by
  refine ⟨by simp [alarm, hs], rfl, alarmRetryLoop_calls_pos ok fuel 0 hf⟩

/-- C10 witness: at instants 3 (previous alarm) and 4 with cooldown 5, the
suppressed alarm keeps alarm_last at 3 with zero broadcasts; from the unset
state the alarm at instant 4 sets the window and broadcasts. -/
theorem suppressed_alarm_frame_witness :
    alarm (some 3) 4 5 (fun _ => false) 2 = ⟨some (), some 3, 0⟩ ∧
    (alarm none 4 5 (fun _ => false) 2).alarm_last = some 4 ∧
    1 ≤ (alarm none 4 5 (fun _ => false) 2).broadcastCalls :=
  suppressed_alarm_frame 3 4 5 (fun _ => false) 2 (by decide) (by decide)

/-- C3 counterexample: the dispatch task spawned for an Alarm-severity alert
does acquire a permit from the concurrency limiter, so the claim that Alarm
dispatches never touch the permit pool is false at this input. -/
theorem execute_alarm_acquires_permit_cex :
    alarmSampleAlert.level = AlertLevel.Alarm ∧
    DispatchStep.acquirePermit ∈ executeSteps alarmSampleAlert := by
  decide

/-- C3 amended: every dispatch task spawned by AlertManager::execute,
whatever the severity of the alert, first acquires a permit from the
fixed-size pool before handling the alert. -/
theorem execute_always_acquires_permit (a : AlertInfo) :
    (executeSteps a).head? = some DispatchStep.acquirePermit ∧
    DispatchStep.acquirePermit ∈ executeSteps a := by
  constructor
  · rfl
  · simp [executeSteps]

/-- C4: with a single leftover pending record whose id is 5, the id counter
is initialized by load_existing_states to 2 (count + 1), not max + 1 = 6, and
the fourth freshly generated state-file id equals 5, colliding with the
leftover record. -/
theorem counter_init_collision :
    counterAfterLoad ([5] : List Nat).length = 2 ∧
    5 ∈ freshIds (counterAfterLoad ([5] : List Nat).length) 4 ∧
    counterAfterLoad ([5] : List Nat).length ≠ 5 + 1 := by
  decide

/-- The retry loop performs at most fuel attempts. -/
lemma retryGo_attempts_length_le (send : Nat → List Nat → SendResultKind) :
    ∀ (fuel attempt : Nat) (rs : List Nat),
      (retryGo send fuel attempt rs).attempts.length ≤ fuel := by
  intro fuel
  induction fuel with
  | zero => intro attempt rs; simp [retryGo]
  | succ f ih =>
    intro attempt rs
    simp only [retryGo]
    split
    · split
      · simp
      · simpa using Nat.succ_le_succ (ih (attempt + 1) _)
    · simp

/-- C2 counterexample: with retry_max = 3 and a single recipient whose send
always fails, send_with_retry does not stop after 3 attempts: it makes a
fourth one. -/
theorem send_with_retry_not_three_attempts :
    (send_with_retry alwaysFailSend 3 [0]).attempts.length ≠ 3 := by
  decide

/-- C2 amended: the per-provider retry loop makes at most retry_max + 1
delivery attempts (the loop header is 1..=retry_max + 1); with retry_max = 3
and a recipient whose send always fails it stops after exactly 4 attempts and
reports the one remaining unsent recipient. -/
theorem send_with_retry_attempt_bound (send : Nat → List Nat → SendResultKind)
    (retry_max : Nat) (rs : List Nat) :
    (send_with_retry send retry_max rs).attempts.length ≤ retry_max + 1 ∧
    (send_with_retry alwaysFailSend 3 [0]).attempts.length = 4 ∧
    (send_with_retry alwaysFailSend 3 [0]).remaining = [0] := by
  refine ⟨?_, by decide, by decide⟩
  by_cases h : rs.isEmpty
  · simp [send_with_retry, h]
  · simpa [send_with_retry, h] using retryGo_attempts_length_le send (retry_max + 1) 1 rs

/-- When the retry loop has fuel left, its first recorded attempt is the
recipient set it was entered with. -/
lemma retryGo_attempts_head (send : Nat → List Nat → SendResultKind)
    (fuel attempt : Nat) (rs : List Nat) (h : 1 ≤ fuel) :
    ∃ tl, (retryGo send fuel attempt rs).attempts = rs :: tl := by
  cases fuel with
  | zero => omega
  | succ f =>
    rcases hsend : send attempt rs with failed | reason
    · by_cases he : failed.isEmpty
      · exact ⟨[], by simp [retryGo, hsend, he]⟩
      · exact ⟨(retryGo send f (attempt + 1) failed).attempts, by simp [retryGo, hsend, he]⟩
    · exact ⟨[], by simp [retryGo, hsend]⟩

/-- Adjacent attempts of the retry loop: whenever an attempt n + 1 exists in
the trace, attempt n returned Completed with a non-empty failed list and the
recipient set of attempt n + 1 is exactly that failed list. -/
lemma retryGo_attempts_adjacent (send : Nat → List Nat → SendResultKind) :
    ∀ (fuel attempt : Nat) (rs : List Nat) (n : Nat) (xn xn1 : List Nat),
      (retryGo send fuel attempt rs).attempts[n]? = some xn →
      (retryGo send fuel attempt rs).attempts[n + 1]? = some xn1 →
      xn1 ≠ [] ∧ send (attempt + n) xn = .Completed xn1 := by
  intro fuel
  induction fuel with
  | zero => intro attempt rs n xn xn1 h1 _; simp [retryGo] at h1
  | succ f ih =>
    intro attempt rs n xn xn1 h1 h2
    rcases hsend : send attempt rs with failed | reason
    · by_cases he : failed.isEmpty
      · rw [show (retryGo send (f + 1) attempt rs).attempts = [rs] by
          simp [retryGo, hsend, he]] at h2
        simp at h2
      · have heq : (retryGo send (f + 1) attempt rs).attempts =
            rs :: (retryGo send f (attempt + 1) failed).attempts := by
          simp [retryGo, hsend, he]
        rw [heq] at h1 h2
        cases n with
        | zero =>
          have hf : 1 ≤ f := by
            by_contra hc
            have hf0 : f = 0 := by omega
            subst hf0
            simp [retryGo] at h2
          obtain ⟨tl, htl⟩ := retryGo_attempts_head send f (attempt + 1) failed hf
          simp only [List.getElem?_cons_zero, List.getElem?_cons_succ, htl,
            Option.some_inj] at h1 h2
          subst h1
          have hx : xn1 = failed := by simpa using h2.symm
          subst hx
          exact ⟨by simpa using he, by simpa using hsend⟩
        | succ m =>
          simp only [List.getElem?_cons_succ] at h1 h2
          have harith : attempt + (m + 1) = attempt + 1 + m := by omega
          rw [harith]
          exact ih (attempt + 1) failed m xn xn1 h1 h2
    · rw [show (retryGo send (f + 1) attempt rs).attempts = [rs] by
        simp [retryGo, hsend]] at h2
      simp at h2

/-- Work sets of the retry loop only shrink: when the provider contract
holds (the failed list of a send is a subset of the attempted recipients),
any later attempted set is a subset of any earlier one. -/
lemma retryGo_attempts_chain (send : Nat → List Nat → SendResultKind)
    (hsub : ∀ a l, (send a l).failedOf ⊆ l) (fuel attempt : Nat) (rs : List Nat) :
    ∀ (j i : Nat) (xi xj : List Nat), i ≤ j →
      (retryGo send fuel attempt rs).attempts[i]? = some xi →
      (retryGo send fuel attempt rs).attempts[j]? = some xj →
      xj ⊆ xi := by
  intro j
  induction j with
  | zero =>
    intro i xi xj hij h1 h2
    have hi0 : i = 0 := by omega
    subst hi0
    have : xi = xj := Option.some_inj.mp (h1.symm.trans h2)
    subst this
    exact List.Subset.refl _
  | succ m ih =>
    intro i xi xj hij h1 h2
    by_cases hcase : i = m + 1
    · subst hcase
      have : xi = xj := Option.some_inj.mp (h1.symm.trans h2)
      subst this
      exact List.Subset.refl _
    · have him : i ≤ m := by omega
      have hm : m < (retryGo send fuel attempt rs).attempts.length := by
        have := (List.getElem?_eq_some.mp h2).1
        omega
      have hmid : (retryGo send fuel attempt rs).attempts[m]? =
          some ((retryGo send fuel attempt rs).attempts[m]) :=
        List.getElem?_eq_getElem hm
      have hadj := retryGo_attempts_adjacent send fuel attempt rs m _ xj hmid h2
      have hxj : xj ⊆ (retryGo send fuel attempt rs).attempts[m] := by
        have hcontr := hsub (attempt + m) ((retryGo send fuel attempt rs).attempts[m])
        rw [hadj.2] at hcontr
        simpa [SendResultKind.failedOf] using hcontr
      exact hxj.trans (ih i xi _ him h1 hmid)

/-- C6: within one provider's retry loop, the recipient set attempted at
attempt N + 1 is exactly the failed set returned at attempt N; under the
provider contract (failed recipients are among the attempted ones) the work
set never grows across attempts and a recipient absent from attempt N + 1 is
never attempted at any later point. -/
theorem retry_work_set_exact (send : Nat → List Nat → SendResultKind)
    (retry_max : Nat) (rs : List Nat) (n : Nat) (xn xn1 : List Nat)
    (hsub : ∀ a l, (send a l).failedOf ⊆ l)
    (h1 : (send_with_retry send retry_max rs).attempts[n]? = some xn)
    (h2 : (send_with_retry send retry_max rs).attempts[n + 1]? = some xn1) :
    (xn1 ≠ [] ∧ send (n + 1) xn = .Completed xn1) ∧
    xn1 ⊆ xn ∧
    (∀ (m : Nat) (xm : List Nat), n + 1 ≤ m →
      (send_with_retry send retry_max rs).attempts[m]? = some xm →
      ∀ r, r ∉ xn1 → r ∉ xm) := by
  by_cases hemp : rs.isEmpty
  · rw [show send_with_retry send retry_max rs = ⟨[], [], false⟩ by
      simp [send_with_retry, hemp]] at h1
    simp at h1
  · have hunf : send_with_retry send retry_max rs = retryGo send (retry_max + 1) 1 rs := by
      simp [send_with_retry, hemp]
    rw [hunf] at h1 h2
    have hadj := retryGo_attempts_adjacent send (retry_max + 1) 1 rs n xn xn1 h1 h2
    refine ⟨⟨hadj.1, by
      have := hadj.2
      rwa [show 1 + n = n + 1 by omega] at this⟩, ?_, ?_⟩
    · exact retryGo_attempts_chain send hsub (retry_max + 1) 1 rs (n + 1) n xn xn1
        (by omega) h1 h2
    · intro m xm hnm hm r hrn
      rw [hunf] at hm
      have hsubm : xm ⊆ xn1 :=
        retryGo_attempts_chain send hsub (retry_max + 1) 1 rs m (n + 1) xn1 xm hnm h2 hm
      intro hrm
      exact hrn (hsubm hrm)

/-- C6 witness: with the oracle for which recipient 1 fails on attempt 1 and
everything succeeds afterwards, starting from recipients 0 and 1, attempt 2
targets exactly the failed set of attempt 1 and the work set shrank. -/
theorem retry_work_set_exact_witness :
    ([1] : List Nat) ≠ [] ∧ dropOneSend 1 [0, 1] = SendResultKind.Completed [1] ∧
    ([1] : List Nat) ⊆ [0, 1] := by
  have h := retry_work_set_exact dropOneSend 3 [0, 1] 0 [0, 1] [1]
    (fun a l => List.filter_subset' l) (by decide) (by decide)
  exact ⟨h.1.1, h.1.2, h.2.1⟩

/-- When a send call of the retry loop reports Unavailable, the loop records
no attempt beyond it and exits through the Unavailable branch. -/
lemma retryGo_unavailable_stops (send : Nat → List Nat → SendResultKind) :
    ∀ (fuel attempt : Nat) (rs : List Nat) (n : Nat) (xn : List Nat) (reason : String),
      (retryGo send fuel attempt rs).attempts[n]? = some xn →
      send (attempt + n) xn = .Unavailable reason →
      (retryGo send fuel attempt rs).attempts.length = n + 1 ∧
      (retryGo send fuel attempt rs).unavailable = true := by
  intro fuel
  induction fuel with
  | zero => intro attempt rs n xn reason h1 _; simp [retryGo] at h1
  | succ f ih =>
    intro attempt rs n xn reason h1 hu
    rcases hsend : send attempt rs with failed | r0
    · by_cases he : failed.isEmpty
      · have heq : retryGo send (f + 1) attempt rs = ⟨[rs], [], false⟩ := by
          simp [retryGo, hsend, he]
        rw [heq] at h1 ⊢
        cases n with
        | zero =>
          exfalso
          simp only [List.getElem?_cons_zero, Option.some_inj] at h1
          subst h1
          rw [Nat.add_zero, hsend] at hu
          exact SendResultKind.noConfusion hu
        | succ m => simp at h1
      · have heq : retryGo send (f + 1) attempt rs =
            ⟨rs :: (retryGo send f (attempt + 1) failed).attempts,
             (retryGo send f (attempt + 1) failed).remaining,
             (retryGo send f (attempt + 1) failed).unavailable⟩ := by
          simp [retryGo, hsend, he]
        rw [heq] at h1 ⊢
        cases n with
        | zero =>
          exfalso
          simp only [List.getElem?_cons_zero, Option.some_inj] at h1
          subst h1
          rw [Nat.add_zero, hsend] at hu
          exact SendResultKind.noConfusion hu
        | succ m =>
          simp only [List.getElem?_cons_succ] at h1
          have harith : attempt + (m + 1) = attempt + 1 + m := by omega
          rw [harith] at hu
          have := ih (attempt + 1) failed m xn reason h1 hu
          constructor
          · simp [this.1]
          · simpa using this.2
    · have heq : retryGo send (f + 1) attempt rs = ⟨[rs], rs, true⟩ := by
        simp [retryGo, hsend]
      rw [heq]
      cases n with
      | zero => exact ⟨rfl, rfl⟩
      | succ m =>
        exfalso
        rw [heq] at h1
        simp at h1

/-- C7: a send returning the Unavailable outcome stops that provider's retry
loop immediately: the trace ends at that attempt and the loop exits through
the Unavailable branch (send_with_retry returns unit, so no error is
propagated); and the registry broadcast treats providers independently, so
any provider entry shared by two provider lists yields the same outcome in
both broadcasts. -/
theorem unavailable_stops_provider :
    (∀ (send : Nat → List Nat → SendResultKind) (retry_max : Nat) (rs : List Nat)
       (n : Nat) (xn : List Nat) (reason : String),
       (send_with_retry send retry_max rs).attempts[n]? = some xn →
       send (n + 1) xn = .Unavailable reason →
       (send_with_retry send retry_max rs).attempts.length = n + 1 ∧
       (send_with_retry send retry_max rs).unavailable = true) ∧
    (∀ (retry_max : Nat)
       (ps qs : List (String × (Nat → List Nat → SendResultKind) × List Nat)) (j : Nat),
       ps[j]? = qs[j]? →
       (registryBroadcast retry_max ps)[j]? = (registryBroadcast retry_max qs)[j]?) := by
  constructor
  · intro send retry_max rs n xn reason h1 hu
    by_cases hemp : rs.isEmpty
    · rw [show send_with_retry send retry_max rs = ⟨[], [], false⟩ by
        simp [send_with_retry, hemp]] at h1
      simp at h1
    · have hunf : send_with_retry send retry_max rs = retryGo send (retry_max + 1) 1 rs := by
        simp [send_with_retry, hemp]
      rw [hunf] at h1 ⊢
      have harith : n + 1 = 1 + n := by omega
      rw [harith] at hu
      exact retryGo_unavailable_stops send (retry_max + 1) 1 rs n xn reason h1 hu
  · intro retry_max ps qs j h
    simp [registryBroadcast, List.getElem?_map, h]

/-- C7 witness: with a provider whose transport client is missing, the retry
loop with retry_max 3 over recipient 0 stops after the very first attempt via
the Unavailable branch. -/
theorem unavailable_stops_provider_witness :
    (send_with_retry unavailableSend 3 [0]).attempts.length = 1 ∧
    (send_with_retry unavailableSend 3 [0]).unavailable = true :=
  unavailable_stops_provider.1 unavailableSend 3 [0] 0 [0] "missing client"
    (by decide) rfl

/-- Membership in the enumerate-filter-map pipeline of get_recipients,
generalized over the enumeration offset. -/
lemma mem_enumFrom_filter_map (lvl : Nat) :
    ∀ (rs : List CommunicationRecipient) (k i : Nat),
      (i ∈ ((rs.enumFrom k).filter (fun p => decide (p.2.level ≤ lvl))).map Prod.fst) ↔
      ∃ j r, i = k + j ∧ rs[j]? = some r ∧ r.level ≤ lvl := by
  intro rs
  induction rs with
  | nil => intro k i; simp
  | cons hd tl ih =>
    intro k i
    rw [show (hd :: tl).enumFrom k = (k, hd) :: tl.enumFrom (k + 1) by simp [List.enumFrom]]
    by_cases hp : hd.level ≤ lvl
    · rw [List.filter_cons_of_pos (by simpa using hp)]
      simp only [List.map_cons, List.mem_cons]
      constructor
      · intro hc
        rcases hc with hc | hc
        · exact ⟨0, hd, by omega, by simp, hp⟩
        · obtain ⟨j, r, hij, hjr, hr⟩ := (ih (k + 1) i).mp hc
          exact ⟨j + 1, r, by omega, by simpa using hjr, hr⟩
      · rintro ⟨j, r, hij, hjr, hr⟩
        cases j with
        | zero =>
          left
          simp only [List.getElem?_cons_zero, Option.some_inj] at hjr
          omega
        | succ m =>
          right
          refine (ih (k + 1) i).mpr ⟨m, r, by omega, by simpa using hjr, hr⟩
    · rw [List.filter_cons_of_neg (by simpa using hp)]
      constructor
      · intro hc
        obtain ⟨j, r, hij, hjr, hr⟩ := (ih (k + 1) i).mp hc
        exact ⟨j + 1, r, by omega, by simpa using hjr, hr⟩
      · rintro ⟨j, r, hij, hjr, hr⟩
        cases j with
        | zero =>
          exfalso
          simp only [List.getElem?_cons_zero, Option.some_inj] at hjr
          subst hjr
          exact hp hr
        | succ m =>
          refine (ih (k + 1) i).mpr ⟨m, r, by omega, by simpa using hjr, hr⟩

/-- C5: get_recipients returns exactly the indices of configured recipients
whose minimum level is at most the alert severity rank; on the spec example
with recipients A at Warning and B at Alarm, an Info alert targets nobody, a
Warning alert targets only index 0, and an Alarm alert targets indices 0 and
1, whatever the other alert fields are. -/
theorem get_recipients_spec :
    (∀ (rs : List CommunicationRecipient) (a : AlertInfo) (i : Nat),
      i ∈ get_recipients rs a ↔ ∃ r, rs[i]? = some r ∧ r.level ≤ a.level.as_u8) ∧
    (∀ (src msg : List Nat) (ts : Option Nat),
      get_recipients sampleRecipients ⟨src, msg, .Info, ts⟩ = [] ∧
      get_recipients sampleRecipients ⟨src, msg, .Warning, ts⟩ = [0] ∧
      get_recipients sampleRecipients ⟨src, msg, .Alarm, ts⟩ = [0, 1]) := by
  constructor
  · intro rs a i
    have h := mem_enumFrom_filter_map a.level.as_u8 rs 0 i
    constructor
    · intro hi
      obtain ⟨j, r, hij, hjr, hr⟩ := h.mp (by simpa [get_recipients] using hi)
      have hji : j = i := by omega
      subst hji
      exact ⟨r, hjr, hr⟩
    · rintro ⟨r, hir, hr⟩
      have := h.mpr ⟨i, r, by omega, hir, hr⟩
      simpa [get_recipients] using this
  · intro src msg ts
    exact ⟨rfl, rfl, rfl⟩

/-- insertName only ever adds the inserted element. -/
lemma subset_insertName (n : String) (l : List String) : l ⊆ insertName n l := by
  intro x hx
  unfold insertName
  split
  · exact hx
  · exact List.mem_cons_of_mem n hx

/-- The inserted name is a member of the insertion result. -/
lemma mem_insertName (n : String) (l : List String) : n ∈ insertName n l := by
  unfold insertName
  split
  · assumption
  · exact List.mem_cons_self n l

/-- insertName stays inside any superset containing the new element. -/
lemma insertName_subset (n : String) (l P : List String) (hl : l ⊆ P) (hn : n ∈ P) :
    insertName n l ⊆ P := by
  unfold insertName
  split
  · exact hl
  · intro x hx
    rcases List.mem_cons.mp hx with rfl | hx
    · exact hn
    · exact hl hx

/-- insertName preserves freedom from duplicates. -/
lemma insertName_nodup (n : String) (l : List String) (h : l.Nodup) :
    (insertName n l).Nodup := by
  unfold insertName
  split
  · exact h
  · exact List.nodup_cons.mpr ⟨by assumption, h⟩

/-- The any_failed flag of the result-processing loop never resets. -/
lemma processResults_anyFailed_mono :
    ∀ (l : List (String × ProviderResult)) (s : FoldState),
      s.anyFailed = true → (processResults l s).anyFailed = true := by
  intro l
  induction l with
  | nil => intro s h; exact h
  | cons hd tl ih =>
    intro s h
    rcases hd with ⟨name, r⟩
    cases r with
    | Sent => exact ih _ h
    | Invalid e => exact ih _ h
    | Failed e => exact ih _ rfl

/-- The ignored set of the result-processing loop only grows. -/
lemma processResults_ignored_mono :
    ∀ (l : List (String × ProviderResult)) (s : FoldState),
      s.ignored ⊆ (processResults l s).ignored := by
  intro l
  induction l with
  | nil => intro s; exact List.Subset.refl _
  | cons hd tl ih =>
    intro s
    rcases hd with ⟨name, r⟩
    cases r with
    | Sent =>
      simp only [processResults]
      exact (subset_insertName name s.ignored).trans
        (ih ⟨insertName name s.ignored, s.successes + 1, s.anyFailed⟩)
    | Invalid e =>
      simp only [processResults]
      exact (subset_insertName name s.ignored).trans
        (ih ⟨insertName name s.ignored, s.successes, s.anyFailed⟩)
    | Failed e =>
      simp only [processResults]
      exact ih ⟨s.ignored, s.successes, true⟩

/-- When no result in the batch failed, every provider of the batch ends up
in the ignored set. -/
lemma processResults_covers :
    ∀ (l : List (String × ProviderResult)) (s : FoldState),
      (processResults l s).anyFailed = false →
      ∀ p ∈ l, p.1 ∈ (processResults l s).ignored := by
  intro l
  induction l with
  | nil => intro s _ p hp; simp at hp
  | cons hd tl ih =>
    intro s hfail p hp
    rcases hd with ⟨name, r⟩
    rcases List.mem_cons.mp hp with rfl | hp2
    · cases r with
      | Sent => exact processResults_ignored_mono tl _ (mem_insertName _ _)
      | Invalid e => exact processResults_ignored_mono tl _ (mem_insertName _ _)
      | Failed e =>
        exfalso
        have := processResults_anyFailed_mono tl
          ⟨s.ignored, s.successes, true⟩ rfl
        simp only [processResults] at hfail
        rw [hfail] at this
        exact Bool.noConfusion this
    · cases r with
      | Sent => exact ih _ hfail p hp2
      | Invalid e => exact ih _ hfail p hp2
      | Failed e => exact ih _ hfail p hp2

/-- The result-processing loop preserves freedom from duplicates of the
ignored set. -/
lemma processResults_nodup :
    ∀ (l : List (String × ProviderResult)) (s : FoldState),
      s.ignored.Nodup → (processResults l s).ignored.Nodup := by
  intro l
  induction l with
  | nil => intro s h; exact h
  | cons hd tl ih =>
    intro s h
    rcases hd with ⟨name, r⟩
    cases r with
    | Sent => exact ih _ (insertName_nodup name s.ignored h)
    | Invalid e => exact ih _ (insertName_nodup name s.ignored h)
    | Failed e => exact ih _ h

/-- The ignored set stays inside any superset containing the batch's provider
names. -/
lemma processResults_ignored_sub :
    ∀ (l : List (String × ProviderResult)) (s : FoldState) (P : List String),
      s.ignored ⊆ P → (∀ p ∈ l, p.1 ∈ P) → (processResults l s).ignored ⊆ P := by
  intro l
  induction l with
  | nil => intro s P hs _; exact hs
  | cons hd tl ih =>
    intro s P hs hl
    rcases hd with ⟨name, r⟩
    have hname : name ∈ P := hl (name, r) (List.mem_cons_self _ _)
    have htl : ∀ p ∈ tl, p.1 ∈ P := fun p hp => hl p (List.mem_cons_of_mem _ hp)
    cases r with
    | Sent => exact ih _ P (insertName_subset name s.ignored P hs hname) htl
    | Invalid e => exact ih _ P (insertName_subset name s.ignored P hs hname) htl
    | Failed e => exact ih _ P hs htl

/-- One-step unfolding of the attempt loop of AlertWorker::broadcast. -/
lemma workerGo_succ (providers : List String) (res : Nat → String → ProviderResult)
    (f attempt : Nat) (ignored : List String) (successes : Nat) :
    workerGo providers res (f + 1) attempt ignored successes =
      (if (processResults (regBroadcastResults providers (res attempt) ignored)
            ⟨ignored, successes, false⟩).ignored.length = providers.length then
        (decide (0 < (processResults (regBroadcastResults providers (res attempt) ignored)
          ⟨ignored, successes, false⟩).successes),
         (processResults (regBroadcastResults providers (res attempt) ignored)
          ⟨ignored, successes, false⟩).successes)
      else if (processResults (regBroadcastResults providers (res attempt) ignored)
            ⟨ignored, successes, false⟩).anyFailed = false then
        (true, (processResults (regBroadcastResults providers (res attempt) ignored)
          ⟨ignored, successes, false⟩).successes)
      else workerGo providers res f (attempt + 1)
        (processResults (regBroadcastResults providers (res attempt) ignored)
          ⟨ignored, successes, false⟩).ignored
        (processResults (regBroadcastResults providers (res attempt) ignored)
          ⟨ignored, successes, false⟩).successes) := rfl

/-- The attempt loop of AlertWorker::broadcast returns Ok exactly when at
least one provider has reported a successful send. -/
lemma workerGo_ok_iff (providers : List String) (res : Nat → String → ProviderResult)
    (hp : providers.Nodup) :
    ∀ (fuel attempt : Nat) (ignored : List String) (successes : Nat),
      ignored.Nodup → ignored ⊆ providers →
      ((workerGo providers res fuel attempt ignored successes).1 = true ↔
        0 < (workerGo providers res fuel attempt ignored successes).2) := by
  intro fuel
  induction fuel with
  | zero => intro attempt ignored successes _ _; simp [workerGo]
  | succ f ih =>
    intro attempt ignored successes hnd hsub
    rw [workerGo_succ]
    have hl : ∀ p ∈ regBroadcastResults providers (res attempt) ignored, p.1 ∈ providers := by
      intro p hp2
      simp only [regBroadcastResults, List.mem_map] at hp2
      obtain ⟨q, hq, rfl⟩ := hp2
      exact (List.mem_filter.mp hq).1
    set s := processResults (regBroadcastResults providers (res attempt) ignored)
      ⟨ignored, successes, false⟩ with hs
    have hnd2 : s.ignored.Nodup := processResults_nodup _ _ hnd
    have hsub2 : s.ignored ⊆ providers := processResults_ignored_sub _ _ providers hsub hl
    by_cases hlen : s.ignored.length = providers.length
    · simp [hlen]
    · by_cases haf : s.anyFailed = false
      · exfalso
        have hcov : providers ⊆ s.ignored := by
          intro q hq
          by_cases hqi : q ∈ ignored
          · exact processResults_ignored_mono _ _ hqi
          · have hqf : q ∈ providers.filter (fun p => !(decide (p ∈ ignored))) :=
              List.mem_filter.mpr ⟨hq, by simpa using hqi⟩
            have hqm : (q, res attempt q) ∈ regBroadcastResults providers (res attempt) ignored := by
              simp only [regBroadcastResults, List.mem_map]
              exact ⟨q, hqf, rfl⟩
            exact processResults_covers _ _ haf (q, res attempt q) hqm
        exact hlen (Nat.le_antisymm ((hnd2.subperm hsub2).length_le)
          ((hp.subperm hcov).length_le))
      · simp only [hlen, if_false, haf]
        exact ih (attempt + 1) s.ignored s.successes hnd2 hsub2

/-- C9: AlertWorker::broadcast returns an error if and only if zero providers
reported a successful send by the time it terminates; in particular all
providers reporting Invalid with no successes yields an error, while a single
success yields Ok even when other providers kept failing or were Invalid. -/
theorem worker_broadcast_err_iff_no_success (providers : List String)
    (res : Nat → String → ProviderResult) (retry_max : Nat) (hp : providers.Nodup) :
    ((workerBroadcast providers res retry_max).1 = false ↔
      (workerBroadcast providers res retry_max).2 = 0) := by
  have hiff := workerGo_ok_iff providers res hp retry_max 1 [] 0 List.nodup_nil
    (by intro x hx; simp at hx)
  show ((workerGo providers res retry_max 1 [] 0).1 = false ↔
      (workerGo providers res retry_max 1 [] 0).2 = 0)
  constructor
  · intro hf
    by_contra hz
    have hcontr := hiff.mpr (Nat.pos_of_ne_zero hz)
    rw [hf] at hcontr
    exact Bool.noConfusion hcontr
  · intro hz
    cases hx : (workerGo providers res retry_max 1 [] 0).1 with
    | false => rfl
    | true =>
      have hpos := hiff.mp hx
      exact absurd hz (by omega)

/-- C9 witness: two providers that both report the alert Invalid at every
attempt give zero successes and an error result. -/
theorem worker_broadcast_err_iff_no_success_witness :
    ((workerBroadcast ["a", "b"] allInvalidRes 1).1 = false ↔
      (workerBroadcast ["a", "b"] allInvalidRes 1).2 = 0) :=
  worker_broadcast_err_iff_no_success ["a", "b"] allInvalidRes 1 (by decide)

/-- The little-endian u64 encoding decodes back to its value for anything
that fits in 64 bits. -/
lemma lebytesToNat_u64le (n : Nat) (h : n < 18446744073709551616) :
    lebytesToNat (u64le n) = n := by
  simp only [u64le, lebytesToNat]
  omega

/-- Reading exactly the length of a known first chunk returns that chunk and
the remainder. -/
lemma readBytes_exact (xs ys : List Nat) : readBytes xs.length (xs ++ ys) = some (xs, ys) := by
  have hle : xs.length ≤ (xs ++ ys).length := by simp
  simp [readBytes, hle, List.take_left, List.drop_left]

/-- The u64 reader inverts the u64 writer. -/
lemma readU64_u64le (n : Nat) (rest : List Nat) (h : n < 18446744073709551616) :
    readU64 (u64le n ++ rest) = some (n, rest) := by
  have h8 : (u64le n).length = 8 := rfl
  have := readBytes_exact (u64le n) rest
  rw [h8] at this
  simp [readU64, this, lebytesToNat_u64le n h]

/-- The string reader inverts the string writer for byte lists whose length
fits in a u64. -/
lemma readStr_writeStr (s rest : List Nat) (h : s.length < 18446744073709551616) :
    readStr (writeStr s ++ rest) = some (s, rest) := by
  have hassoc : writeStr s ++ rest = u64le s.length ++ (s ++ rest) := by
    simp [writeStr]
  rw [hassoc]
  simp [readStr, readU64_u64le s.length (s ++ rest) h, readBytes_exact s rest]

/-- The u32 reader inverts the u32 writer. -/
lemma readU32_u32le (m : Nat) (rest : List Nat) (h : m < 4294967296) :
    readU32 (u32le m ++ rest) = some (m, rest) := by
  have h4 : (u32le m).length = 4 := rfl
  have hrb := readBytes_exact (u32le m) rest
  rw [h4] at hrb
  have hval : lebytesToNat (u32le m) = m := by
    simp only [u32le, lebytesToNat]
    omega
  simp [readU32, hrb, hval]

/-- The severity reader inverts the severity writer. -/
lemma readLevel_writeLevel (lv : AlertLevel) (rest : List Nat) :
    readLevel (writeLevel lv ++ rest) = some (lv, rest) := by
  cases lv
  · simp [readLevel, writeLevel, levelIdx, readU32_u32le 0 rest (by decide), levelOfIdx]
  · simp [readLevel, writeLevel, levelIdx, readU32_u32le 1 rest (by decide), levelOfIdx]
  · simp [readLevel, writeLevel, levelIdx, readU32_u32le 2 rest (by decide), levelOfIdx]
  · simp [readLevel, writeLevel, levelIdx, readU32_u32le 3 rest (by decide), levelOfIdx]

/-- The optional-timestamp reader inverts its writer when the value fits in a
u64. -/
lemma readOptU64_writeOptU64 (o : Option Nat) (rest : List Nat)
    (h : o.getD 0 < 18446744073709551616) :
    readOptU64 (writeOptU64 o ++ rest) = some (o, rest) := by
  cases o with
  | none => simp [writeOptU64, readOptU64]
  | some n =>
    have hn : n < 18446744073709551616 := by simpa using h
    simp [writeOptU64, readOptU64, readU64_u64le n rest hn]

/-- C8: for every AlertInfo whose string lengths and timestamp fit in a u64
(always true of the Rust values), deserializing the bytes written by
save_state as done by load_state_file returns the original value with no
bytes left over: the durable-persistence round trip is the identity. -/
theorem alert_state_roundtrip (a : AlertInfo)
    (hs : a.source.length < 18446744073709551616)
    (hm : a.message.length < 18446744073709551616)
    (ht : a.timestamp.getD 0 < 18446744073709551616) :
    deserializeAlert (serializeAlert a) = some (a, []) := by
  have key : readOptU64 (writeOptU64 a.timestamp) = some (a.timestamp, []) := by
    have h := readOptU64_writeOptU64 a.timestamp [] ht
    simpa using h
  simp only [serializeAlert, deserializeAlert, readStr_writeStr _ _ hs,
    readStr_writeStr _ _ hm, readLevel_writeLevel, key]

/-- C8 witness: the round trip evaluated on a concrete alert. -/
theorem alert_state_roundtrip_witness :
    deserializeAlert (serializeAlert sampleAlert) = some (sampleAlert, []) :=
  alert_state_roundtrip sampleAlert (by decide) (by decide) (by decide)
